import Mathlib

/-!
Verification of the viewport-adaptive LOD feature streaming/caching engine and
its label-placement algorithm (FeatureLoader and MapController).

The JavaScript source is shallowly embedded: JS `Map`s become association
lists, promises become explicit handles plus a deterministic settlement
oracle `fetch : String → Option Geo` (`none` models a rejected fetch),
and the async batch loop becomes an explicit batch-by-batch state machine
that also emits a trace of network events. Floating-point quantities
(coordinates, zoom, pixel geometry) are modelled over `ℚ`; the label-box
pixel computation (font metrics and golden-ratio wrapping) is abstracted
as each candidate's precomputed box, while the collision and commit logic
is modelled exactly.
-/

namespace NIB

/-- Opaque decoded geometry-plus-properties payload (one per-feature GeoJSON
record). Its content never influences the loading logic, so it is modelled
as a wrapped value. -/
structure Geo where
  val : Nat
deriving DecidableEq

/-- Decimal rendering of a natural number, modelling JS template-literal
interpolation of an integer index (as in `${index}`). -/
def natStr (n : Nat) : String :=
  if n = 0 then "0" else String.mk (((Nat.digits 10 n).map Nat.digitChar).reverse)

/-- Association-list lookup, modelling JS `Map.get` (an absent key, JS
`undefined`, is `none`). -/
def alookup {α : Type} (k : String) : List (String × α) → Option α
  | [] => none
  | kv :: rest => if k = kv.1 then some kv.2 else alookup k rest

/-- Association-list removal, modelling JS `Map.delete`. -/
def aerase {α : Type} (k : String) : List (String × α) → List (String × α)
  | [] => []
  | kv :: rest => if kv.1 = k then aerase k rest else kv :: aerase k rest

/-- Prefix test on strings, modelling JS `String.prototype.startsWith`. -/
def strStartsWith (s p : String) : Bool :=
  p.data.isPrefixOf s.data

/-- Only use LOD loading for maps with more than this many features
(`FEATURE_THRESHOLD` in feature-loader.js). -/
def FEATURE_THRESHOLD : Nat := 50

/-- Max parallel fetch requests (`CONCURRENT_LOADS` in feature-loader.js). -/
def CONCURRENT_LOADS : Nat := 50

/-- Fractional buffer around the viewport (`VIEWPORT_BUFFER` in feature-loader.js). -/
def VIEWPORT_BUFFER : ℚ := 0.2

/-- Geographic bounding box of a spatial-index entry, stored as
`[minLng, minLat, maxLng, maxLat]` in the source. -/
structure Bbox where
  minLng : ℚ
  minLat : ℚ
  maxLng : ℚ
  maxLat : ℚ
deriving DecidableEq

/-- One record of the per-map spatial index: feature id (format
"mapId:index"), display name and geographic bbox. -/
structure Feat where
  id : String
  name : String
  bbox : Bbox
deriving DecidableEq

/-- Leaflet-style geographic rectangle, with the four accessors
getSouth/getWest/getNorth/getEast represented as fields. -/
structure Bounds where
  south : ℚ
  west : ℚ
  north : ℚ
  east : ℚ
deriving DecidableEq

/-- FeatureLoader.getLODForZoom: zoom ≥ 12 → 2, 8 ≤ zoom < 12 → 1, else 0. -/
def getLODForZoom (zoom : ℚ) : Nat :=
  if zoom ≥ 12 then 2 else if zoom ≥ 8 then 1 else 0

/-- FeatureLoader.getBufferedBounds: expand a rectangle by
`VIEWPORT_BUFFER` of its height vertically and of its width horizontally. -/
def getBufferedBounds (bounds : Bounds) : Bounds :=
  let latDiff := bounds.north - bounds.south
  let lngDiff := bounds.east - bounds.west
  { south := bounds.south - latDiff * VIEWPORT_BUFFER
    west := bounds.west - lngDiff * VIEWPORT_BUFFER
    north := bounds.north + latDiff * VIEWPORT_BUFFER
    east := bounds.east + lngDiff * VIEWPORT_BUFFER }

/-- Body of the filter in FeatureLoader.getFeaturesInBounds: the negated
bbox-disjointness test of the source, over the buffered rectangle. -/
def featBboxTest (f : Feat) (minLng maxLng minLat maxLat : ℚ) : Bool :=
  !(decide (f.bbox.maxLng < minLng) || decide (f.bbox.minLng > maxLng) ||
    decide (f.bbox.maxLat < minLat) || decide (f.bbox.minLat > maxLat))

/-- FeatureLoader.getFeaturesInBounds restricted to one dataset's index
list: filter by bbox intersection with the buffered viewport. -/
def featuresInBounds (features : List Feat) (bounds : Bounds) : List Feat :=
  let bufferedBounds := getBufferedBounds bounds
  features.filter (fun f =>
    featBboxTest f bufferedBounds.west bufferedBounds.east
      bufferedBounds.south bufferedBounds.north)

/-- FeatureLoader.getFeaturesInBounds: look the dataset up in
`spatialIndexByMap` (unknown dataset yields `[]`), then filter by bbox
intersection against the buffered viewport. -/
def getFeaturesInBounds (spatialIndexByMap : List (String × List Feat))
    (mapId : String) (bounds : Bounds) : List Feat :=
  match alookup mapId spatialIndexByMap with
  | none => []
  | some features => featuresInBounds features bounds

/-- Modelled from the spec: the brute-force reference predicate "feature
bbox intersects rectangle r" used by the testable property for `query`;
compared against the source's `featuresInBounds` filter. -/
def specBboxIntersects (f : Feat) (r : Bounds) : Prop :=
  f.bbox.minLng ≤ r.east ∧ r.west ≤ f.bbox.maxLng ∧
  f.bbox.minLat ≤ r.north ∧ r.south ≤ f.bbox.maxLat

instance (f : Feat) (r : Bounds) : Decidable (specBboxIntersects f r) := by
  unfold specBboxIntersects
  infer_instance

/-- FeatureLoader.supportsLOD: false before the index is loaded
(`inited` models `this.initialized`), false for an unknown dataset
(JS `features && ...` yielding undefined), otherwise the feature count
compared against `FEATURE_THRESHOLD` with `>=`. -/
def supportsLOD (inited : Bool) (spatialIndexByMap : List (String × List Feat))
    (mapId : String) : Bool :=
  if !inited then false else
  match alookup mapId spatialIndexByMap with
  | some features => decide (features.length ≥ FEATURE_THRESHOLD)
  | none => false

/-- FeatureLoader.getFeatureCount: entry count, 0 for an unknown dataset. -/
def getFeatureCount (spatialIndexByMap : List (String × List Feat))
    (mapId : String) : Nat :=
  ((alookup mapId spatialIndexByMap).map List.length).getD 0

/-- FeatureLoader.parseFeatureId: "mapId:index" → index. JS
`parseInt(parts[1], 10)` on a malformed id gives NaN; that degenerate
value is modelled as 0 (no claim exercises malformed ids). -/
def parseFeatureId (id : String) : Nat :=
  (((id.splitOn ":").getD 1 "").toNat?).getD 0

/-- State of a FeatureLoader instance: the feature cache keyed by
"mapId:index:lod", the in-flight table keyed by URL (promises are
modelled as numeric handles), and the handle counter. -/
structure LoaderState where
  loadedFeatures : List (String × Geo)
  pendingLoads : List (String × Nat)
  nextHandle : Nat
deriving DecidableEq

/-- The FeatureLoader constructor: empty cache and in-flight table. -/
def newLoader : LoaderState :=
  { loadedFeatures := [], pendingLoads := [], nextHandle := 0 }

/-- Cache key `${mapId}:${index}:${lod}` of FeatureLoader.loadFeature. -/
def cacheKey (mapId : String) (index lod : Nat) : String :=
  mapId ++ ":" ++ natStr index ++ ":" ++ natStr lod

/-- Resource URL `data/features/${mapId}/${index}-lod-${lod}.json`. -/
def featureUrl (mapId : String) (index lod : Nat) : String :=
  "data/features/" ++ mapId ++ "/" ++ natStr index ++ "-lod-" ++ natStr lod ++ ".json"

/-- What a caller of loadFeature observes synchronously: the cached
payload, or the (possibly shared) handle of the in-flight promise. -/
inductive LoadResult where
  | cached (g : Geo)
  | pending (handle : Nat)
deriving DecidableEq

/-- Network-level events, for stating how fetches are sequenced. -/
inductive Event where
  | fetchStart (url : String)
  | settled (url : String)
deriving DecidableEq

/-- Synchronous phase of FeatureLoader.loadFeature: return the cache hit
if present, else join an in-flight request for the same URL, else issue
a new network operation (one `fetchStart` event) and register it. -/
def loadFeature (st : LoaderState) (mapId : String) (index lod : Nat) :
    LoadResult × LoaderState × List Event :=
  let url := featureUrl mapId index lod
  let key := cacheKey mapId index lod
  match alookup key st.loadedFeatures with
  | some g => (.cached g, st, [])
  | none =>
    match alookup url st.pendingLoads with
    | some h => (.pending h, st, [])
    | none =>
      (.pending st.nextHandle,
        { st with pendingLoads := (url, st.nextHandle) :: st.pendingLoads,
                  nextHandle := st.nextHandle + 1 },
        [.fetchStart url])

/-- The success continuation of the fetch in loadFeature: store the decoded
payload in the cache and drop the in-flight entry. -/
def cacheFeature (st : LoaderState) (mapId : String) (index lod : Nat) (g : Geo) :
    LoaderState :=
  { st with loadedFeatures := (cacheKey mapId index lod, g) :: st.loadedFeatures,
            pendingLoads := aerase (featureUrl mapId index lod) st.pendingLoads }

/-- The failure continuation of the fetch in loadFeature: drop the
in-flight entry only (the resource is excluded from the cache). -/
def dropPending (st : LoaderState) (mapId : String) (index lod : Nat) : LoaderState :=
  { st with pendingLoads := aerase (featureUrl mapId index lod) st.pendingLoads }

/-- What one batch member is waiting on after the synchronous phase:
an immediate cache hit, or the settlement of the fetch for its index. -/
inductive MemberOutcome where
  | ready (g : Geo)
  | awaiting (index : Nat)
deriving DecidableEq

/-- Synchronous phase of one batch of FeatureLoader.loadFeatures:
`batch.map(index => this.loadFeature(...))` runs each loadFeature body in
order, before any promise settles. -/
def issueBatch (mapId : String) (lod : Nat) :
    LoaderState → List Nat → List MemberOutcome × LoaderState × List Event
  | st, [] => ([], st, [])
  | st, index :: rest =>
    match loadFeature st mapId index lod with
    | (res, st1, evs1) =>
      match issueBatch mapId lod st1 rest with
      | (outs, st2, evs2) =>
        ((match res with
          | .cached g => MemberOutcome.ready g
          | .pending _ => MemberOutcome.awaiting index) :: outs,
         st2, evs1 ++ evs2)

/-- Settlement phase of one batch (the `await Promise.all(...)`): each
awaited fetch settles through its deterministic outcome `fetch url`
(`none` = rejection, caught and turned into a null member result); a
fetch that some earlier member of the batch already settled is not
re-run — its shared resolved value is read back. -/
def settleBatch (fetch : String → Option Geo) (mapId : String) (lod : Nat) :
    LoaderState → List MemberOutcome → List (Option Geo) × LoaderState × List Event
  | st, [] => ([], st, [])
  | st, .ready g :: rest =>
    match settleBatch fetch mapId lod st rest with
    | (res, st1, evs) => (some g :: res, st1, evs)
  | st, .awaiting index :: rest =>
    match alookup (featureUrl mapId index lod) st.pendingLoads with
    | none =>
      match settleBatch fetch mapId lod st rest with
      | (res, st1, evs) => (fetch (featureUrl mapId index lod) :: res, st1, evs)
    | some _ =>
      match fetch (featureUrl mapId index lod) with
      | some g =>
        match settleBatch fetch mapId lod (cacheFeature st mapId index lod g) rest with
        | (res, st1, evs) =>
          (some g :: res, st1, Event.settled (featureUrl mapId index lod) :: evs)
      | none =>
        match settleBatch fetch mapId lod (dropPending st mapId index lod) rest with
        | (res, st1, evs) =>
          (none :: res, st1, Event.settled (featureUrl mapId index lod) :: evs)

/-- One fully-settled batch: synchronous starts, then settlements. -/
def runBatch (fetch : String → Option Geo) (st : LoaderState) (mapId : String)
    (batch : List Nat) (lod : Nat) : List (Option Geo) × LoaderState × List Event :=
  match issueBatch mapId lod st batch with
  | (outs, st1, evsA) =>
    match settleBatch fetch mapId lod st1 outs with
    | (res, st2, evsB) => (res, st2, evsA ++ evsB)

/-- The slicing loop of FeatureLoader.loadFeatures:
`for (let i = 0; i < indices.length; i += CONCURRENT_LOADS)`. -/
def toBatches : List Nat → List (List Nat)
  | [] => []
  | x :: xs =>
    ((x :: xs).take CONCURRENT_LOADS) :: toBatches ((x :: xs).drop CONCURRENT_LOADS)
termination_by l => l.length
decreasing_by simp [List.length_drop, CONCURRENT_LOADS]; omega

/-- Batch-sequential execution of FeatureLoader.loadFeatures: batch N+1
is issued only after every member of batch N has settled; per-batch null
results (failed fetches) are filtered out of the accumulated results. -/
def loadFeaturesGo (fetch : String → Option Geo) (mapId : String) (lod : Nat) :
    LoaderState → List (List Nat) → List Geo × LoaderState × List Event
  | st, [] => ([], st, [])
  | st, batch :: rest =>
    match runBatch fetch st mapId batch lod with
    | (bres, st1, evs1) =>
      match loadFeaturesGo fetch mapId lod st1 rest with
      | (res, st2, evs2) => (bres.filterMap id ++ res, st2, evs1 ++ evs2)

/-- FeatureLoader.loadFeatures: partition `indices` into fixed-width
batches and run them sequentially. -/
def loadFeatures (fetch : String → Option Geo) (st : LoaderState) (mapId : String)
    (indices : List Nat) (lod : Nat) : List Geo × LoaderState × List Event :=
  loadFeaturesGo fetch mapId lod st (toBatches indices)

/-- The inner loop of FeatureLoader.getFeaturesToLoad: scan cached LODs
from `targetLOD` up to 2 and stop at the first hit (the spec's
`hasAtOrAbove`). -/
def hasGoodEnoughLOD (st : LoaderState) (mapId : String) (index targetLOD : Nat) : Bool :=
  (List.range' targetLOD (3 - targetLOD)).any
    (fun lod => (alookup (cacheKey mapId index lod) st.loadedFeatures).isSome)

/-- FeatureLoader.getFeaturesToLoad: the visible ids minus those already
cache-satisfied at the target LOD or better (the spec's `resolveFetchSet`). -/
def getFeaturesToLoad (st : LoaderState) (mapId : String) (featureIds : List String)
    (targetLOD : Nat) : List Nat :=
  featureIds.filterMap (fun id =>
    let index := parseFeatureId id
    if hasGoodEnoughLOD st mapId index targetLOD then none else some index)

/-- FeatureLoader.clearMap: delete every cache entry whose key starts
with `mapId + ":"`. Only `loadedFeatures` is touched. -/
def clearMap (st : LoaderState) (mapId : String) : LoaderState :=
  { st with loadedFeatures :=
      st.loadedFeatures.filter (fun kv => !strStartsWith kv.1 (mapId ++ ":")) }

/-- Committed pixel rectangle of a placed label (left/right/top/bottom,
padding already included), as built in MapController.updateLabels. -/
structure Box where
  left : ℚ
  right : ℚ
  top : ℚ
  bottom : ℚ
deriving DecidableEq

/-- The AABB overlap test of MapController.updateLabels (the negated
disjointness disjunction inside `placedLabels.some(...)`). -/
def boxesOverlap (a b : Box) : Bool :=
  !(decide (a.right < b.left) || decide (a.left > b.right) ||
    decide (a.bottom < b.top) || decide (a.top > b.bottom))

/-- A label candidate: its numeric priority and its computed pixel box.
`box = none` models a candidate skipped before the collision test
(anchor outside the viewport, or a geometry error caught by the
surrounding try/catch); the pixel-box arithmetic itself is
floating-point layout abstracted as data. -/
structure LabelEntry where
  priority : ℚ
  box : Option Box
deriving DecidableEq

/-- Stable insertion of a candidate into a priority-descending list: the
candidate is placed before the first entry whose priority does not
exceed its own, so on ties the earlier-encountered candidate stays
first. -/
def insertByPriority (x : LabelEntry) : List LabelEntry → List LabelEntry
  | [] => [x]
  | y :: ys => if x.priority ≥ y.priority then x :: y :: ys else y :: insertByPriority x ys

/-- The stable sort `allLabels.sort((a, b) => (b.priority || 0) - (a.priority || 0))`:
priority descending, ties keeping encounter order (JS Array.prototype.sort
is stable). -/
def sortByPriorityDesc (l : List LabelEntry) : List LabelEntry :=
  l.foldr insertByPriority []

/-- The placement loop of MapController.updateLabels: walk candidates in
order, keep the committed boxes, and commit a candidate only when its box
overlaps none of the already-committed boxes. -/
def placePass : List LabelEntry → List Box → List Box
  | [], placed => placed
  | info :: rest, placed =>
    match info.box with
    | none => placePass rest placed
    | some b =>
      if placed.any (fun existing => boxesOverlap b existing) then placePass rest placed
      else placePass rest (placed ++ [b])

/-- MapController.updateLabels on one pass's candidate list: stable-sort
by priority descending, then greedily commit non-overlapping boxes. -/
def updateLabels (entries : List LabelEntry) : List Box :=
  placePass (sortByPriorityDesc entries) []

/-- Per-dataset render state of MapController (`layerStates` entry):
the rendered geoJSON layers and the label entries collected from them. -/
structure LayerState where
  geoJsonLayers : List Geo
  labelEntries : List Geo
deriving DecidableEq

/-- MapController.addFeatureToLayer: append the rendered layer; a feature
with a usable label property (decided by the `hasLabel` oracle) also
pushes a label entry. -/
def addFeatureToLayer (hasLabel : Geo → Bool) (layer : LayerState) (g : Geo) : LayerState :=
  { layer with geoJsonLayers := layer.geoJsonLayers ++ [g],
               labelEntries := if hasLabel g then layer.labelEntries ++ [g]
                               else layer.labelEntries }

/-- One iteration of the per-dataset loop in MapController.updateLODLayers,
for a visible dataset: compute the new LOD from the zoom and the visible
index set from the viewport; on a LOD change, clear the rendered layers,
clear the dataset's cache, and reload every currently-visible feature at
the new LOD; otherwise top up only the missing features. Returns the new
loader state, the new layer state, the new displayed LOD, and the network
trace. -/
def updateLODLayersStep (fetch : String → Option Geo) (hasLabel : Geo → Bool)
    (spatialIndexByMap : List (String × List Feat)) (loader : LoaderState)
    (layer : LayerState) (currentLOD : Option Nat) (mapId : String)
    (bounds : Bounds) (zoom : ℚ) :
    LoaderState × LayerState × Option Nat × List Event :=
  let newLOD := getLODForZoom zoom
  let visibleFeatures := getFeaturesInBounds spatialIndexByMap mapId bounds
  let indices := getFeaturesToLoad loader mapId (visibleFeatures.map Feat.id) newLOD
  if currentLOD ≠ some newLOD then
    let loader1 := clearMap loader mapId
    let allIndices := visibleFeatures.map (fun f => parseFeatureId f.id)
    match loadFeatures fetch loader1 mapId allIndices newLOD with
    | (features, loader2, evs) =>
      (loader2,
       features.foldl (addFeatureToLayer hasLabel) { geoJsonLayers := [], labelEntries := [] },
       some newLOD, evs)
  else if indices.isEmpty then (loader, layer, currentLOD, [])
  else
    match loadFeatures fetch loader mapId indices newLOD with
    | (features, loader2, evs) =>
      (loader2, features.foldl (addFeatureToLayer hasLabel) layer, currentLOD, evs)

/-! ### Infrastructure lemmas: decimal strings, association lists, prefixes -/

theorem digitChar_inj {d e : Nat} (hd : d < 10) (he : e < 10)
    (h : Nat.digitChar d = Nat.digitChar e) : d = e := by
  interval_cases d <;> interval_cases e <;> first | rfl | exact absurd h (by decide)

theorem digitChar_ne_colon {d : Nat} (hd : d < 10) : Nat.digitChar d ≠ ':' := by
  interval_cases d <;> decide

theorem map_digitChar_inj : ∀ {l1 l2 : List Nat}, (∀ d ∈ l1, d < 10) → (∀ d ∈ l2, d < 10) →
    l1.map Nat.digitChar = l2.map Nat.digitChar → l1 = l2
  | [], [], _, _, _ => rfl
  | [], _ :: _, _, _, h => by simp at h
  | _ :: _, [], _, _, h => by simp at h
  | d :: l1, e :: l2, h1, h2, h => by
    simp only [List.map_cons, List.cons.injEq] at h
    have hde := digitChar_inj (h1 d (by simp)) (h2 e (by simp)) h.1
    subst hde
    rw [map_digitChar_inj (fun x hx => h1 x (by simp [hx]))
      (fun x hx => h2 x (by simp [hx])) h.2]

theorem natStr_ne_zero_str {b : Nat} (hb : b ≠ 0) :
    String.mk (((Nat.digits 10 b).map Nat.digitChar).reverse) ≠ "0" := by
  intro h
  have hdata : ((Nat.digits 10 b).map Nat.digitChar).reverse = ['0'] :=
    congrArg String.data h
  have h2 : (Nat.digits 10 b).map Nat.digitChar = ['0'] := by
    simpa using congrArg List.reverse hdata
  have hlen : (Nat.digits 10 b).length = 1 := by
    simpa using congrArg List.length h2
  obtain ⟨d, hd⟩ := List.length_eq_one.mp hlen
  rw [hd] at h2
  simp only [List.map_cons, List.map_nil, List.cons.injEq, and_true] at h2
  have hd10 : d < 10 := Nat.digits_lt_base (by norm_num) (by rw [hd]; simp)
  have hd0 : d = 0 := digitChar_inj hd10 (by norm_num) (by rw [h2]; rfl)
  subst hd0
  have hof := Nat.ofDigits_digits 10 b
  rw [hd] at hof
  simp [Nat.ofDigits] at hof
  exact hb hof.symm

theorem natStr_inj {a b : Nat} (h : natStr a = natStr b) : a = b := by
  unfold natStr at h
  by_cases ha : a = 0 <;> by_cases hb : b = 0
  · omega
  · rw [if_pos ha, if_neg hb] at h
    exact absurd h.symm (natStr_ne_zero_str hb)
  · rw [if_neg ha, if_pos hb] at h
    exact absurd h (natStr_ne_zero_str ha)
  · rw [if_neg ha, if_neg hb] at h
    have hdata : ((Nat.digits 10 a).map Nat.digitChar).reverse
        = ((Nat.digits 10 b).map Nat.digitChar).reverse := congrArg String.data h
    have hmap : (Nat.digits 10 a).map Nat.digitChar = (Nat.digits 10 b).map Nat.digitChar := by
      simpa using congrArg List.reverse hdata
    have hdig := map_digitChar_inj
      (fun d hd => Nat.digits_lt_base (by norm_num) hd)
      (fun d hd => Nat.digits_lt_base (by norm_num) hd) hmap
    exact Nat.digits_inj_iff.mp hdig

theorem natStr_data_digits {n : Nat} {c : Char} (hc : c ∈ (natStr n).data) :
    ∃ d, d < 10 ∧ c = Nat.digitChar d := by
  unfold natStr at hc
  split at hc
  · have h0 : c = '0' := by simpa using hc
    exact ⟨0, by norm_num, by rw [h0]; rfl⟩
  · replace hc : c ∈ ((Nat.digits 10 n).map Nat.digitChar).reverse := hc
    rw [List.mem_reverse, List.mem_map] at hc
    obtain ⟨d, hd, hEq⟩ := hc
    exact ⟨d, Nat.digits_lt_base (by norm_num) hd, hEq.symm⟩

theorem natStr_no_colon {n : Nat} : ':' ∉ (natStr n).data := by
  intro h
  obtain ⟨d, hd, hEq⟩ := natStr_data_digits h
  revert hEq
  interval_cases d <;> decide

theorem natStr_no_dash {n : Nat} : '-' ∉ (natStr n).data := by
  intro h
  obtain ⟨d, hd, hEq⟩ := natStr_data_digits h
  revert hEq
  interval_cases d <;> decide

theorem alookup_cons_self {α : Type} (k : String) (v : α) (l : List (String × α)) :
    alookup k ((k, v) :: l) = some v := by
  simp [alookup]

theorem alookup_eq_none_iff {α : Type} (k : String) (l : List (String × α)) :
    alookup k l = none ↔ k ∉ l.map Prod.fst := by
  induction l with
  | nil => simp [alookup]
  | cons kv rest ih =>
    by_cases hk : k = kv.1
    · subst hk; simp [alookup]
    · simp [alookup, hk, ih, Ne.symm hk]

theorem alookup_isSome_of_mem {α : Type} {k : String} {l : List (String × α)}
    (h : k ∈ l.map Prod.fst) : ∃ v, alookup k l = some v := by
  cases hv : alookup k l with
  | some v => exact ⟨v, rfl⟩
  | none => exact absurd h ((alookup_eq_none_iff k l).mp hv)

theorem alookup_append_right {α : Type} {k : String} {l1 l2 : List (String × α)}
    (h : k ∉ l1.map Prod.fst) : alookup k (l1 ++ l2) = alookup k l2 := by
  induction l1 with
  | nil => rfl
  | cons kv rest ih =>
    simp only [List.map_cons, List.mem_cons, not_or] at h
    simp [alookup, h.1, ih h.2]

theorem aerase_append {α : Type} (k : String) (l1 l2 : List (String × α)) :
    aerase k (l1 ++ l2) = aerase k l1 ++ aerase k l2 := by
  induction l1 with
  | nil => rfl
  | cons kv rest ih =>
    by_cases hk : kv.1 = k <;> simp [aerase, hk, ih]

theorem aerase_of_not_mem {α : Type} {k : String} {l : List (String × α)}
    (h : k ∉ l.map Prod.fst) : aerase k l = l := by
  induction l with
  | nil => rfl
  | cons kv rest ih =>
    simp only [List.map_cons, List.mem_cons, not_or] at h
    simp [aerase, Ne.symm h.1, ih h.2]

theorem aerase_map_fst {α : Type} {k : String} :
    ∀ {l : List (String × α)} {A : List String},
    l.map Prod.fst = A ++ [k] → k ∉ A → (aerase k l).map Prod.fst = A
  | [], A, h, _ => by simp at h
  | kv :: rest, [], h, _ => by
    simp only [List.map_cons, List.nil_append, List.cons.injEq] at h
    have hrest : rest = [] := List.map_eq_nil_iff.mp h.2
    simp [aerase, h.1, hrest]
  | kv :: rest, a :: A, h, hA => by
    simp only [List.map_cons, List.cons_append, List.cons.injEq] at h
    simp only [List.mem_cons, not_or] at hA
    have hak : ¬(a = k) := fun hh => hA.1 hh.symm
    simp [aerase, h.1, hak, aerase_map_fst h.2 hA.2]

theorem alookup_filter_pred_none {α : Type} (p : String → Bool) {k : String}
    (l : List (String × α)) (hk : p k = true) :
    alookup k (l.filter (fun kv => !p kv.1)) = none := by
  induction l with
  | nil => rfl
  | cons kv rest ih =>
    by_cases hkv : p kv.1
    · simp [List.filter_cons, hkv, ih]
    · have hne : k ≠ kv.1 := fun hEq => by rw [hEq] at hk; simp [hk] at hkv
      simp [List.filter_cons, hkv, alookup, hne, ih]

theorem alookup_filter_pred_false {α : Type} (p : String → Bool) {k : String}
    (l : List (String × α)) (hk : p k = false) :
    alookup k (l.filter (fun kv => !p kv.1)) = alookup k l := by
  induction l with
  | nil => rfl
  | cons kv rest ih =>
    by_cases hke : k = kv.1
    · subst hke; simp [List.filter_cons, hk, alookup, ih]
    · by_cases hkv : p kv.1 <;> simp [List.filter_cons, hkv, alookup, hke, ih]

theorem colonfree_append_colon_inj : ∀ {a b : List Char}, ':' ∉ a → ':' ∉ b →
    a ++ [':'] <+: b ++ [':'] → a = b
  | [], [], _, _, _ => rfl
  | [], c :: bs, _, hb, h => by
    rw [List.nil_append, List.cons_append, List.cons_prefix_cons] at h
    exact absurd (h.1.symm ▸ List.mem_cons_self c bs) (h.1 ▸ hb)
  | c :: cs, [], ha, _, h => by
    rw [List.cons_append, List.nil_append, List.cons_prefix_cons] at h
    exact absurd (List.mem_cons_self c cs) (h.1 ▸ ha)
  | c :: cs, d :: ds, ha, hb, h => by
    rw [List.cons_append, List.cons_append, List.cons_prefix_cons] at h
    have htail := colonfree_append_colon_inj (fun hx => ha (List.mem_cons_of_mem c hx))
      (fun hx => hb (List.mem_cons_of_mem d hx)) h.2
    rw [h.1, htail]

theorem strStartsWith_append (s t : String) : strStartsWith (s ++ t) s = true := by
  unfold strStartsWith
  rw [ List.isPrefixOf_iff_prefix, String.data_append]
  exact List.prefix_append _ _

theorem cacheKey_startsWith (mapId : String) (index lod : Nat) :
    strStartsWith (cacheKey mapId index lod) (mapId ++ ":") = true := by
  unfold strStartsWith cacheKey
  rw [ List.isPrefixOf_iff_prefix]
  exact ⟨(natStr index ++ ":" ++ natStr lod).data,
    by simp [String.data_append, List.append_assoc]⟩

theorem cacheKey_not_startsWith {mapId mapId2 : String} (index lod : Nat)
    (h1 : ':' ∉ mapId.data) (h2 : ':' ∉ mapId2.data) (hne : mapId2 ≠ mapId) :
    strStartsWith (cacheKey mapId2 index lod) (mapId ++ ":") = false := by
  by_contra hcon
  rw [Bool.not_eq_false] at hcon
  unfold strStartsWith cacheKey at hcon
  rw [ List.isPrefixOf_iff_prefix] at hcon
  have hshape : (mapId2 ++ ":" ++ natStr index ++ ":" ++ natStr lod).data
      = (mapId2.data ++ [':']) ++ ((natStr index ++ ":" ++ natStr lod).data) := by
    simp [String.data_append, List.append_assoc]
  rw [hshape] at hcon
  have hpre1 : mapId.data ++ [':'] <+: (mapId2.data ++ [':']) ++
      ((natStr index ++ ":" ++ natStr lod).data) := by
    have : (mapId ++ ":").data = mapId.data ++ [':'] := by simp [String.data_append]
    rw [this] at hcon
    exact hcon
  have hpre2 : mapId2.data ++ [':'] <+: (mapId2.data ++ [':']) ++
      ((natStr index ++ ":" ++ natStr lod).data) := List.prefix_append _ _
  rcases List.prefix_or_prefix_of_prefix hpre1 hpre2 with hp | hp
  · exact hne (String.ext (colonfree_append_colon_inj h1 h2 hp)).symm
  · exact hne (String.ext (colonfree_append_colon_inj h2 h1 hp))

theorem cacheKey_index_inj {mapId : String} {i j lod : Nat}
    (h : cacheKey mapId i lod = cacheKey mapId j lod) : i = j := by
  have hd := congrArg String.data h
  simp [cacheKey, String.data_append] at hd
  exact natStr_inj (String.ext hd)

theorem featureUrl_index_inj {mapId : String} {i j lod : Nat}
    (h : featureUrl mapId i lod = featureUrl mapId j lod) : i = j := by
  have hd := congrArg String.data h
  simp [featureUrl, String.data_append] at hd
  exact natStr_inj (String.ext hd)

/-! ### Label placement: C1, C2 -/

theorem boxesOverlap_comm (a b : Box) : boxesOverlap a b = boxesOverlap b a := by
  by_cases h1 : a.right < b.left <;> by_cases h2 : b.right < a.left <;>
    by_cases h3 : a.bottom < b.top <;> by_cases h4 : b.bottom < a.top <;>
    simp [boxesOverlap, gt_iff_lt, h1, h2, h3, h4]

theorem placePass_append (l1 l2 : List LabelEntry) (placed : List Box) :
    placePass (l1 ++ l2) placed = placePass l2 (placePass l1 placed) := by
  induction l1 generalizing placed with
  | nil => rfl
  | cons info rest ih =>
    cases hbox : info.box with
    | none => simp [placePass, hbox, ih]
    | some b =>
      by_cases hov : placed.any (fun existing => boxesOverlap b existing) <;>
        simp [placePass, hbox, hov, ih]

theorem placePass_pairwise (l : List LabelEntry) (placed : List Box)
    (h : placed.Pairwise (fun a b => boxesOverlap a b = false)) :
    (placePass l placed).Pairwise (fun a b => boxesOverlap a b = false) := by
  induction l generalizing placed with
  | nil => exact h
  | cons info rest ih =>
    cases hbox : info.box with
    | none => simpa [placePass, hbox] using ih placed h
    | some b =>
      by_cases hov : placed.any (fun existing => boxesOverlap b existing)
      · simpa [placePass, hbox, hov] using ih placed h
      · rw [show placePass (info :: rest) placed = placePass rest (placed ++ [b]) by
          simp [placePass, hbox, hov]]
        refine ih (placed ++ [b]) (List.pairwise_append.mpr ⟨h, by simp, ?_⟩)
        intro x hx y hy
        rw [List.mem_singleton] at hy
        rw [hy]
        have h0 : (placed.any fun existing => boxesOverlap b existing) = false :=
          Bool.eq_false_iff.mpr hov
        have h1 := List.any_eq_false.mp h0 x hx
        rw [boxesOverlap_comm]
        exact Bool.eq_false_iff.mpr h1

/-- C1: during every label-placement pass the set of committed pixel boxes
is pairwise non-overlapping at all times: after any number `n` of
processed candidates (and in particular at the end of the pass), any two
committed rectangles fail the AABB overlap test; a candidate is only ever
committed after testing against every already-committed rectangle. -/
theorem updateLabels_pairwise_disjoint (entries : List LabelEntry) (n : Nat) :
    (placePass ((sortByPriorityDesc entries).take n) []).Pairwise
      (fun a b => boxesOverlap a b = false) ∧
    placePass ((sortByPriorityDesc entries).drop n)
      (placePass ((sortByPriorityDesc entries).take n) []) = updateLabels entries ∧
    (updateLabels entries).Pairwise (fun a b => boxesOverlap a b = false) := by
  refine ⟨placePass_pairwise _ _ (by simp), ?_, placePass_pairwise _ _ (by simp)⟩
  rw [← placePass_append, List.take_append_drop]
  rfl

/-- C2: when exactly two candidates A and B have overlapping computed
boxes, the pass sorts them by priority descending (stable on ties) and
commits only the winner: if A's priority is at least B's (including the
equal-priority tie, input order [A, B]) then A's box is the only one
committed, and if B's priority is strictly higher then B's box is. -/
theorem updateLabels_overlap_priority (A B : LabelEntry) (bA bB : Box)
    (hA : A.box = some bA) (hB : B.box = some bB)
    (hov : boxesOverlap bA bB = true) :
    (B.priority ≤ A.priority → updateLabels [A, B] = [bA]) ∧
    (A.priority < B.priority → updateLabels [A, B] = [bB]) := by
  constructor
  · intro hp
    have hge : A.priority ≥ B.priority := hp
    have hov2 : boxesOverlap bB bA = true := boxesOverlap_comm bA bB ▸ hov
    simp [updateLabels, sortByPriorityDesc, insertByPriority, hge, placePass, hA, hB, hov2]
  · intro hp
    have hnge : ¬(A.priority ≥ B.priority) := not_le.mpr hp
    simp [updateLabels, sortByPriorityDesc, insertByPriority, hnge, placePass, hA, hB, hov]

theorem updateLabels_overlap_priority_witness :
    (⟨0, some ⟨0, 10, 0, 10⟩⟩ : LabelEntry).box = some ⟨0, 10, 0, 10⟩ ∧
    (⟨0, some ⟨5, 15, 0, 10⟩⟩ : LabelEntry).box = some ⟨5, 15, 0, 10⟩ ∧
    boxesOverlap ⟨0, 10, 0, 10⟩ ⟨5, 15, 0, 10⟩ = true ∧
    ((⟨0, some ⟨5, 15, 0, 10⟩⟩ : LabelEntry).priority ≤
        (⟨0, some ⟨0, 10, 0, 10⟩⟩ : LabelEntry).priority →
      updateLabels [⟨0, some ⟨0, 10, 0, 10⟩⟩, ⟨0, some ⟨5, 15, 0, 10⟩⟩]
        = [⟨0, 10, 0, 10⟩]) := by
  have hov : boxesOverlap ⟨0, 10, 0, 10⟩ ⟨5, 15, 0, 10⟩ = true := by
    norm_num [boxesOverlap]
  exact ⟨rfl, rfl, hov,
    (updateLabels_overlap_priority ⟨0, some ⟨0, 10, 0, 10⟩⟩ ⟨0, some ⟨5, 15, 0, 10⟩⟩
      ⟨0, 10, 0, 10⟩ ⟨5, 15, 0, 10⟩ rfl rfl hov).1⟩

/-! ### Spatial queries: C3 -/

theorem featBboxTest_eq_spec (f : Feat) (r : Bounds) :
    featBboxTest f r.west r.east r.south r.north
      = decide (specBboxIntersects f r) := by
  rw [Bool.eq_iff_iff, decide_eq_true_eq]
  unfold featBboxTest specBboxIntersects
  simp only [Bool.not_eq_true', Bool.or_eq_false_iff, decide_eq_false_iff_not,
    not_lt, gt_iff_lt]
  tauto

/-- C3: the dataset query equals a brute-force bbox-intersection scan of
the dataset's index entries against the viewport expanded by 20% of its
width and height; concretely, viewport [-7.0, 54.0, -6.0, 54.5] buffers
to [-7.2, 53.9, -5.8, 54.6], which admits a feature with bbox
[-6.5, 54.1, -6.4, 54.2] and rejects one with bbox [-8.0, 54.1, -7.5, 54.2]. -/
theorem query_bruteforce_spec :
    (∀ (spatialIndexByMap : List (String × List Feat)) (mapId : String) (bounds : Bounds),
      getFeaturesInBounds spatialIndexByMap mapId bounds
        = ((alookup mapId spatialIndexByMap).getD []).filter
            (fun f => decide (specBboxIntersects f (getBufferedBounds bounds)))) ∧
    getBufferedBounds ⟨54, -7, 54.5, -6⟩ = ⟨53.9, -7.2, 54.6, -5.8⟩ ∧
    getFeaturesInBounds
        [("osni", [⟨"osni:0", "in", ⟨-6.5, 54.1, -6.4, 54.2⟩⟩,
                   ⟨"osni:1", "out", ⟨-8, 54.1, -7.5, 54.2⟩⟩])]
        "osni" ⟨54, -7, 54.5, -6⟩
      = [⟨"osni:0", "in", ⟨-6.5, 54.1, -6.4, 54.2⟩⟩] := by
  refine ⟨?_, ?_, ?_⟩
  · intro spatialIndexByMap mapId bounds
    unfold getFeaturesInBounds
    cases h : alookup mapId spatialIndexByMap with
    | none => rfl
    | some features =>
      unfold featuresInBounds
      simp only [Option.getD_some]
      exact List.filter_congr fun f _ => featBboxTest_eq_spec f (getBufferedBounds bounds)
  · norm_num [getBufferedBounds, VIEWPORT_BUFFER, Bounds.mk.injEq]
  · norm_num [getFeaturesInBounds, featuresInBounds, featBboxTest, getBufferedBounds,
      VIEWPORT_BUFFER, List.filter, alookup]

/-! ### Cache clearing: C9, C10 -/

theorem clearMap_alookup_none (st : LoaderState) (mapId : String) (index lod : Nat) :
    alookup (cacheKey mapId index lod) (clearMap st mapId).loadedFeatures = none :=
  alookup_filter_pred_none (fun s => strStartsWith s (mapId ++ ":"))
    st.loadedFeatures (cacheKey_startsWith mapId index lod)

/-- C9 counterexample: clearMap does not touch the in-flight table — a
pending request handle registered for dataset "a" survives
`clearMap st "a"` unchanged, so the in-flight bookkeeping is not dropped. -/
theorem clearMap_keeps_pending_cex :
    (clearMap ⟨[], [(featureUrl "a" 0 0, 0)], 1⟩ "a").pendingLoads
      = [(featureUrl "a" 0 0, 0)] := rfl

/-- C9 amended: clearDataset(D) drops every cached feature entry of D
(no key (D, index, lod) remains resolvable), but the in-flight request
table is left entirely untouched. -/
theorem clearMap_drops_cache_only (st : LoaderState) (mapId : String) (index lod : Nat) :
    alookup (cacheKey mapId index lod) (clearMap st mapId).loadedFeatures = none ∧
    (clearMap st mapId).pendingLoads = st.pendingLoads :=
  ⟨clearMap_alookup_none st mapId index lod, rfl⟩

/-- C10 counterexample: clearing dataset "a" also deletes the cached
entry of the distinct dataset "a:0", because the key "a:0:0:0" starts
with the prefix "a:"; the cached value for ("a:0", 0, 0) changes from
`some ⟨0⟩` to `none` even though "a:0" ≠ "a". -/
theorem clearMap_cross_dataset_cex :
    alookup (cacheKey "a:0" 0 0) [(cacheKey "a:0" 0 0, (⟨0⟩ : Geo))] = some ⟨0⟩ ∧
    ("a:0" : String) ≠ "a" ∧
    alookup (cacheKey "a:0" 0 0)
      (clearMap ⟨[(cacheKey "a:0" 0 0, ⟨0⟩)], [], 0⟩ "a").loadedFeatures = none := by
  refine ⟨by decide, by decide, by decide⟩

/-- C10 amended: clearDataset(D) leaves every other dataset's cached
features unchanged provided dataset ids contain no ':' (the deletion
predicate is the string prefix "D:", which a key of a colon-free
dataset id D' ≠ D can never match). -/
theorem clearMap_frame_colonfree (st : LoaderState) (mapId mapId2 : String)
    (index lod : Nat) (h1 : ':' ∉ mapId.data) (h2 : ':' ∉ mapId2.data)
    (hne : mapId2 ≠ mapId) :
    alookup (cacheKey mapId2 index lod) (clearMap st mapId).loadedFeatures
      = alookup (cacheKey mapId2 index lod) st.loadedFeatures :=
  alookup_filter_pred_false (fun s => strStartsWith s (mapId ++ ":"))
    st.loadedFeatures (cacheKey_not_startsWith index lod h1 h2 hne)

theorem clearMap_frame_colonfree_witness :
    ':' ∉ ("a" : String).data ∧ ':' ∉ ("b" : String).data ∧ ("b" : String) ≠ "a" ∧
    alookup (cacheKey "b" 0 0)
        (clearMap ⟨[(cacheKey "b" 0 0, (⟨0⟩ : Geo))], [], 0⟩ "a").loadedFeatures
      = alookup (cacheKey "b" 0 0) [(cacheKey "b" 0 0, (⟨0⟩ : Geo))] :=
  ⟨by decide, by decide, by decide,
    clearMap_frame_colonfree ⟨[(cacheKey "b" 0 0, ⟨0⟩)], [], 0⟩
      "a" "b" 0 0 (by decide) (by decide) (by decide)⟩

/-! ### Threshold: C8 -/

/-- C8 counterexample: a dataset with exactly 50 features — not strictly
more than 50 — already reports supportsLOD = true, because the source
compares with `>=`, not `>`. -/
theorem supportsLOD_at_threshold_cex :
    supportsLOD true
        [("wards", List.replicate 50 (⟨"wards:0", "w", ⟨0, 0, 0, 0⟩⟩ : Feat))] "wards" = true ∧
    ¬((List.replicate 50 (⟨"wards:0", "w", ⟨0, 0, 0, 0⟩⟩ : Feat)).length > 50) := by
  constructor
  · rfl
  · simp

/-- C8 amended: supportsDetail(D) is true iff the spatial index is
loaded and D's feature count is at least the threshold 50 (`>=`, so a
count of exactly 50 qualifies); a 120-feature dataset yields true and a
10-feature dataset yields false. -/
theorem supportsLOD_ge_threshold :
    (∀ (inited : Bool) (idx : List (String × List Feat)) (mapId : String)
       (features : List Feat), alookup mapId idx = some features →
      (supportsLOD inited idx mapId = true ↔
        inited = true ∧ features.length ≥ FEATURE_THRESHOLD)) ∧
    supportsLOD true
      [("wards", List.replicate 120 (⟨"wards:0", "w", ⟨0, 0, 0, 0⟩⟩ : Feat))] "wards" = true ∧
    supportsLOD true
      [("rivers", List.replicate 10 (⟨"rivers:0", "r", ⟨0, 0, 0, 0⟩⟩ : Feat))] "rivers" = false := by
  refine ⟨?_, rfl, rfl⟩
  intro inited idx mapId features h
  cases inited with
  | false => simp [supportsLOD]
  | true => simp [supportsLOD, h]

theorem supportsLOD_ge_threshold_witness :
    alookup "wards" [("wards", [(⟨"wards:0", "w", ⟨0, 0, 0, 0⟩⟩ : Feat)])]
      = some [⟨"wards:0", "w", ⟨0, 0, 0, 0⟩⟩] ∧
    (supportsLOD true [("wards", [(⟨"wards:0", "w", ⟨0, 0, 0, 0⟩⟩ : Feat)])] "wards" = true ↔
      true = true ∧ [(⟨"wards:0", "w", ⟨0, 0, 0, 0⟩⟩ : Feat)].length ≥ FEATURE_THRESHOLD) :=
  ⟨rfl, supportsLOD_ge_threshold.1 true
    [("wards", [⟨"wards:0", "w", ⟨0, 0, 0, 0⟩⟩])] "wards"
    [⟨"wards:0", "w", ⟨0, 0, 0, 0⟩⟩] rfl⟩

/-! ### Request de-duplication: C4 -/

/-- C4: per resource key, the loader issues at most one network
operation: a request for a cached key returns the cached payload with no
network traffic and no state change; a first request for a fresh key
issues exactly one fetch and registers its handle; a second identical
request while that fetch is in flight issues nothing, changes nothing,
and receives the very same pending handle as the first caller (hence
both observers share one eventual settlement). -/
theorem ensureLoaded_dedup (st : LoaderState) (mapId : String) (index lod : Nat) :
    (∀ g, alookup (cacheKey mapId index lod) st.loadedFeatures = some g →
      loadFeature st mapId index lod = (.cached g, st, [])) ∧
    (alookup (cacheKey mapId index lod) st.loadedFeatures = none →
     alookup (featureUrl mapId index lod) st.pendingLoads = none →
      loadFeature st mapId index lod =
        (.pending st.nextHandle,
         { st with
             pendingLoads := (featureUrl mapId index lod, st.nextHandle) :: st.pendingLoads,
             nextHandle := st.nextHandle + 1 },
         [.fetchStart (featureUrl mapId index lod)]) ∧
      loadFeature (loadFeature st mapId index lod).2.1 mapId index lod =
        (.pending st.nextHandle, (loadFeature st mapId index lod).2.1, [])) := by
  constructor
  · intro g hg
    simp [loadFeature, hg]
  · intro hc hp
    have h1 : loadFeature st mapId index lod =
        (.pending st.nextHandle,
         { st with
             pendingLoads := (featureUrl mapId index lod, st.nextHandle) :: st.pendingLoads,
             nextHandle := st.nextHandle + 1 },
         [.fetchStart (featureUrl mapId index lod)]) := by
      simp [loadFeature, hc, hp]
    refine ⟨h1, ?_⟩
    rw [h1]
    simp [loadFeature, hc, alookup_cons_self]

theorem ensureLoaded_dedup_witness :
    alookup (cacheKey "a" 0 0) newLoader.loadedFeatures = none ∧
    alookup (featureUrl "a" 0 0) newLoader.pendingLoads = none ∧
    (loadFeature newLoader "a" 0 0 =
      (.pending newLoader.nextHandle,
       { newLoader with
           pendingLoads := (featureUrl "a" 0 0, newLoader.nextHandle) :: newLoader.pendingLoads,
           nextHandle := newLoader.nextHandle + 1 },
       [.fetchStart (featureUrl "a" 0 0)]) ∧
     loadFeature (loadFeature newLoader "a" 0 0).2.1 "a" 0 0 =
      (.pending newLoader.nextHandle, (loadFeature newLoader "a" 0 0).2.1, [])) :=
  ⟨rfl, rfl, (ensureLoaded_dedup newLoader "a" 0 0).2 rfl rfl⟩

/-! ### Cache monotonicity: C6 -/

theorem hasGoodEnoughLOD_after_cache (st : LoaderState) (mapId : String)
    (index L m : Nat) (g : Geo) (hm : m ≤ L) (hL : L ≤ 2) :
    hasGoodEnoughLOD (cacheFeature st mapId index L g) mapId index m = true := by
  unfold hasGoodEnoughLOD
  rw [List.any_eq_true]
  refine ⟨L, ?_, ?_⟩
  · rw [List.mem_range'_1]
    omega
  · unfold cacheFeature
    simp [alookup_cons_self]

/-- C6: immediately after a successful load of (D, index) is cached at
detail level L (with m ≤ L ≤ 2), the level scan hasAtOrAbove(D, index, m)
is true — it walks levels m..2 and hits the cached L — and consequently
the fetch-set resolution excludes `index` from the features to load for
every target level t ≤ L, whatever the visible id list is. -/
theorem hasAtOrAbove_monotone (st : LoaderState) (mapId : String)
    (index L m t : Nat) (g : Geo) (ids : List String)
    (hm : m ≤ L) (hL : L ≤ 2) (ht : t ≤ L) :
    hasGoodEnoughLOD (cacheFeature st mapId index L g) mapId index m = true ∧
    index ∉ getFeaturesToLoad (cacheFeature st mapId index L g) mapId ids t := by
  refine ⟨hasGoodEnoughLOD_after_cache st mapId index L m g hm hL, ?_⟩
  intro hmem
  unfold getFeaturesToLoad at hmem
  rw [List.mem_filterMap] at hmem
  obtain ⟨id, _, heq⟩ := hmem
  by_cases hGood : hasGoodEnoughLOD (cacheFeature st mapId index L g) mapId
      (parseFeatureId id) t
  · rw [if_pos hGood] at heq
    exact Option.noConfusion heq
  · rw [if_neg hGood] at heq
    have hpid : parseFeatureId id = index := Option.some.inj heq
    rw [hpid] at hGood
    exact hGood (hasGoodEnoughLOD_after_cache st mapId index L t g ht hL)

theorem hasAtOrAbove_monotone_witness :
    (0 : Nat) ≤ 2 ∧ (2 : Nat) ≤ 2 ∧ (1 : Nat) ≤ 2 ∧
    (hasGoodEnoughLOD (cacheFeature newLoader "a" 0 2 ⟨0⟩) "a" 0 0 = true ∧
     0 ∉ getFeaturesToLoad (cacheFeature newLoader "a" 0 2 ⟨0⟩) "a" ["a:0"] 1) :=
  ⟨by decide, by decide, by decide,
    hasAtOrAbove_monotone newLoader "a" 0 2 0 1 ⟨0⟩ ["a:0"]
      (by decide) (by decide) (by decide)⟩

/-! ### Batch execution machinery: C5, C7 -/

theorem toBatches_eq {l : List Nat} (hl : l ≠ []) :
    toBatches l = l.take CONCURRENT_LOADS :: toBatches (l.drop CONCURRENT_LOADS) := by
  cases l with
  | nil => exact absurd rfl hl
  | cons x xs => simp [toBatches]

theorem toBatches_flatten : ∀ l : List Nat, (toBatches l).flatten = l
  | [] => by simp [toBatches]
  | x :: xs => by
    rw [toBatches_eq (List.cons_ne_nil x xs), List.flatten_cons,
      toBatches_flatten ((x :: xs).drop CONCURRENT_LOADS)]
    exact List.take_append_drop _ _
termination_by l => l.length
decreasing_by simp [List.length_drop, CONCURRENT_LOADS]; omega

theorem toBatches_length_le : ∀ l : List Nat, ∀ b ∈ toBatches l, b.length ≤ CONCURRENT_LOADS
  | [] => by simp [toBatches]
  | x :: xs => by
    rw [toBatches_eq (List.cons_ne_nil x xs)]
    intro b hb
    rcases List.mem_cons.mp hb with hb | hb
    · rw [hb, List.length_take]
      exact min_le_left _ _
    · exact toBatches_length_le ((x :: xs).drop CONCURRENT_LOADS) b hb
termination_by l => l.length
decreasing_by simp [List.length_drop, CONCURRENT_LOADS]; omega

theorem toBatches_sizes_120 (l : List Nat) (hl : l.length = 120) :
    (toBatches l).map List.length = [50, 50, 20] := by
  have h1 : l ≠ [] := by
    intro h
    rw [h] at hl
    simp at hl
  have hd1 : (l.drop CONCURRENT_LOADS).length = 70 := by
    simp [List.length_drop, hl, CONCURRENT_LOADS]
  have h2 : l.drop CONCURRENT_LOADS ≠ [] := by
    intro h
    rw [h] at hd1
    simp at hd1
  have hd2 : ((l.drop CONCURRENT_LOADS).drop CONCURRENT_LOADS).length = 20 := by
    simp [List.length_drop, hl, CONCURRENT_LOADS]
  have h3 : (l.drop CONCURRENT_LOADS).drop CONCURRENT_LOADS ≠ [] := by
    intro h
    rw [h] at hd2
    simp at hd2
  have hd3 : ((l.drop CONCURRENT_LOADS).drop CONCURRENT_LOADS).drop CONCURRENT_LOADS = [] := by
    rw [← List.length_eq_zero]
    simp [List.length_drop, hl, CONCURRENT_LOADS]
  rw [toBatches_eq h1, toBatches_eq h2, toBatches_eq h3, hd3,
    show toBatches ([] : List Nat) = [] from by simp [toBatches]]
  simp only [List.map_cons, List.map_nil, List.length_take, hl, hd1, hd2]
  simp only [CONCURRENT_LOADS]
  decide

theorem issueBatch_fresh (mapId : String) (lod : Nat) :
    ∀ (batch : List Nat) (st : LoaderState),
    batch.Nodup →
    (∀ i ∈ batch, alookup (cacheKey mapId i lod) st.loadedFeatures = none) →
    (∀ i ∈ batch, alookup (featureUrl mapId i lod) st.pendingLoads = none) →
    ∃ pnew : List (String × Nat),
      issueBatch mapId lod st batch =
        (batch.map MemberOutcome.awaiting,
         { st with
             pendingLoads := pnew ++ st.pendingLoads,
             nextHandle := st.nextHandle + batch.length },
         batch.map (fun i => Event.fetchStart (featureUrl mapId i lod))) ∧
      pnew.map Prod.fst = (batch.map (fun i => featureUrl mapId i lod)).reverse
  | [], st, _, _, _ => ⟨[], by simp [issueBatch], by simp⟩
  | i :: rest, st, hnd, hcache, hpend => by
    have hc : alookup (cacheKey mapId i lod) st.loadedFeatures = none :=
      hcache i (List.mem_cons_self i rest)
    have hp : alookup (featureUrl mapId i lod) st.pendingLoads = none :=
      hpend i (List.mem_cons_self i rest)
    have hlf : loadFeature st mapId i lod =
        (.pending st.nextHandle,
         { st with
             pendingLoads := (featureUrl mapId i lod, st.nextHandle) :: st.pendingLoads,
             nextHandle := st.nextHandle + 1 },
         [.fetchStart (featureUrl mapId i lod)]) := by
      simp [loadFeature, hc, hp]
    have hni : i ∉ rest := (List.nodup_cons.mp hnd).1
    obtain ⟨pnew1, heq, hfst⟩ := issueBatch_fresh mapId lod rest
      { st with
          pendingLoads := (featureUrl mapId i lod, st.nextHandle) :: st.pendingLoads,
          nextHandle := st.nextHandle + 1 }
      (List.nodup_cons.mp hnd).2
      (fun j hj => hcache j (List.mem_cons_of_mem i hj))
      (fun j hj => by
        have hne : featureUrl mapId j lod ≠ featureUrl mapId i lod := by
          intro hEq
          exact hni (featureUrl_index_inj hEq ▸ hj)
        simpa [alookup, hne] using hpend j (List.mem_cons_of_mem i hj))
    refine ⟨pnew1 ++ [(featureUrl mapId i lod, st.nextHandle)], ?_, ?_⟩
    · simp only [issueBatch, hlf, heq]
      simp [List.append_assoc]
      try omega
    · simp [hfst, List.reverse_cons]

theorem settleBatch_fresh (fetch : String → Option Geo) (mapId : String) (lod : Nat) :
    ∀ (batch : List Nat) (st : LoaderState) (pnew orig : List (String × Nat)),
    batch.Nodup →
    st.pendingLoads = pnew ++ orig →
    pnew.map Prod.fst = (batch.map (fun i => featureUrl mapId i lod)).reverse →
    (∀ i ∈ batch, alookup (featureUrl mapId i lod) orig = none) →
    settleBatch fetch mapId lod st (batch.map MemberOutcome.awaiting) =
      (batch.map (fun i => fetch (featureUrl mapId i lod)),
       { st with
           loadedFeatures := (batch.filterMap (fun i =>
             (fetch (featureUrl mapId i lod)).map
               (fun g => (cacheKey mapId i lod, g)))).reverse ++ st.loadedFeatures,
           pendingLoads := orig },
       batch.map (fun i => Event.settled (featureUrl mapId i lod)))
  | [], st, pnew, orig, _, hpl, hfst, _ => by
    have hfst0 : pnew.map Prod.fst = [] := by simpa using hfst
    have hpnil : pnew = [] := List.map_eq_nil_iff.mp hfst0
    subst hpnil
    rw [List.nil_append] at hpl
    simp only [List.map_nil, settleBatch, List.filterMap_nil, List.reverse_nil,
      List.nil_append]
    rw [← hpl]
  | i :: rest, st, pnew, orig, hnd, hpl, hfst, horig => by
    have hni : i ∉ rest := (List.nodup_cons.mp hnd).1
    have hfst' : pnew.map Prod.fst
        = (rest.map (fun j => featureUrl mapId j lod)).reverse
          ++ [featureUrl mapId i lod] := by
      simpa [List.reverse_cons] using hfst
    have hmem2 : featureUrl mapId i lod ∈ st.pendingLoads.map Prod.fst := by
      rw [hpl, List.map_append]
      exact List.mem_append_left _ (by rw [hfst']; simp)
    obtain ⟨v, hv⟩ := alookup_isSome_of_mem hmem2
    have hnotmem_orig : featureUrl mapId i lod ∉ orig.map Prod.fst :=
      (alookup_eq_none_iff _ _).mp (horig i (List.mem_cons_self i rest))
    have hnotmem_rest : featureUrl mapId i lod
        ∉ (rest.map (fun j => featureUrl mapId j lod)).reverse := by
      rw [List.mem_reverse, List.mem_map]
      rintro ⟨j, hj, hEq⟩
      exact hni (featureUrl_index_inj hEq ▸ hj)
    have hpe : (aerase (featureUrl mapId i lod) pnew).map Prod.fst
        = (rest.map (fun j => featureUrl mapId j lod)).reverse :=
      aerase_map_fst hfst' hnotmem_rest
    have hperase : aerase (featureUrl mapId i lod) st.pendingLoads
        = aerase (featureUrl mapId i lod) pnew ++ orig := by
      rw [hpl, aerase_append, aerase_of_not_mem hnotmem_orig]
    cases hf : fetch (featureUrl mapId i lod) with
    | some g =>
      have hrec := settleBatch_fresh fetch mapId lod rest
        (cacheFeature st mapId i lod g)
        (aerase (featureUrl mapId i lod) pnew) orig (List.nodup_cons.mp hnd).2
        (by simp [cacheFeature, hperase]) hpe
        (fun j hj => horig j (List.mem_cons_of_mem i hj))
      simp only [List.map_cons, settleBatch, hv, hf, hrec]
      simp [cacheFeature, hf, List.reverse_cons, List.append_assoc]
    | none =>
      have hrec := settleBatch_fresh fetch mapId lod rest
        (dropPending st mapId i lod)
        (aerase (featureUrl mapId i lod) pnew) orig (List.nodup_cons.mp hnd).2
        (by simp [dropPending, hperase]) hpe
        (fun j hj => horig j (List.mem_cons_of_mem i hj))
      simp only [List.map_cons, settleBatch, hv, hf, hrec]
      simp [dropPending, hf, List.append_assoc]

theorem runBatch_fresh (fetch : String → Option Geo) (mapId : String) (lod : Nat)
    (batch : List Nat) (st : LoaderState) (hnd : batch.Nodup)
    (hcache : ∀ i ∈ batch, alookup (cacheKey mapId i lod) st.loadedFeatures = none)
    (hpend : ∀ i ∈ batch, alookup (featureUrl mapId i lod) st.pendingLoads = none) :
    runBatch fetch st mapId batch lod =
      (batch.map (fun i => fetch (featureUrl mapId i lod)),
       { st with
           loadedFeatures := (batch.filterMap (fun i =>
             (fetch (featureUrl mapId i lod)).map
               (fun g => (cacheKey mapId i lod, g)))).reverse ++ st.loadedFeatures,
           nextHandle := st.nextHandle + batch.length },
       batch.map (fun i => Event.fetchStart (featureUrl mapId i lod)) ++
         batch.map (fun i => Event.settled (featureUrl mapId i lod))) := by
  obtain ⟨pnew, hissue, hfst⟩ := issueBatch_fresh mapId lod batch st hnd hcache hpend
  have hsettle := settleBatch_fresh fetch mapId lod batch
    { st with
        pendingLoads := pnew ++ st.pendingLoads,
        nextHandle := st.nextHandle + batch.length }
    pnew st.pendingLoads hnd rfl hfst hpend
  unfold runBatch
  simp only [hissue, hsettle]

theorem filterMap_cache_fst_mem {fetch : String → Option Geo} {mapId : String} {lod : Nat}
    {batch : List Nat} {k : String}
    (hk : k ∈ ((batch.filterMap (fun i => (fetch (featureUrl mapId i lod)).map
      (fun g => (cacheKey mapId i lod, g)))).reverse).map Prod.fst) :
    ∃ i ∈ batch, k = cacheKey mapId i lod := by
  rw [List.map_reverse, List.mem_reverse, List.mem_map] at hk
  obtain ⟨kv, hkv, hfstEq⟩ := hk
  rw [List.mem_filterMap] at hkv
  obtain ⟨i, hi, hsome⟩ := hkv
  cases hOpt : fetch (featureUrl mapId i lod) with
  | none => rw [hOpt] at hsome; simp at hsome
  | some g =>
    rw [hOpt] at hsome
    simp only [Option.map_some'] at hsome
    refine ⟨i, hi, ?_⟩
    rw [← hfstEq, ← Option.some.inj hsome]

theorem loadFeaturesGo_fresh (fetch : String → Option Geo) (mapId : String) (lod : Nat) :
    ∀ (batches : List (List Nat)) (st : LoaderState),
    batches.flatten.Nodup →
    (∀ i ∈ batches.flatten, alookup (cacheKey mapId i lod) st.loadedFeatures = none) →
    (∀ i ∈ batches.flatten, alookup (featureUrl mapId i lod) st.pendingLoads = none) →
    loadFeaturesGo fetch mapId lod st batches =
      (batches.flatten.filterMap (fun i => fetch (featureUrl mapId i lod)),
       { st with
           loadedFeatures := (batches.flatten.filterMap (fun i =>
             (fetch (featureUrl mapId i lod)).map
               (fun g => (cacheKey mapId i lod, g)))).reverse ++ st.loadedFeatures,
           nextHandle := st.nextHandle + batches.flatten.length },
       (batches.map (fun b =>
         b.map (fun i => Event.fetchStart (featureUrl mapId i lod)) ++
         b.map (fun i => Event.settled (featureUrl mapId i lod)))).flatten)
  | [], st, _, _, _ => by simp [loadFeaturesGo]
  | batch :: rest, st, hnd, hcache, hpend => by
    rw [List.flatten_cons] at hnd hcache hpend
    have hndb : batch.Nodup := (List.nodup_append.mp hnd).1
    have hdisj : batch.Disjoint rest.flatten := (List.nodup_append.mp hnd).2.2
    have hrb := runBatch_fresh fetch mapId lod batch st hndb
      (fun i hi => hcache i (List.mem_append_left _ hi))
      (fun i hi => hpend i (List.mem_append_left _ hi))
    have hih := loadFeaturesGo_fresh fetch mapId lod rest
      { st with
          loadedFeatures := (batch.filterMap (fun i =>
            (fetch (featureUrl mapId i lod)).map
              (fun g => (cacheKey mapId i lod, g)))).reverse ++ st.loadedFeatures,
          nextHandle := st.nextHandle + batch.length }
      (List.nodup_append.mp hnd).2.1
      (fun j hj => by
        rw [show ({ st with
            loadedFeatures := (batch.filterMap (fun i =>
              (fetch (featureUrl mapId i lod)).map
                (fun g => (cacheKey mapId i lod, g)))).reverse ++ st.loadedFeatures,
            nextHandle := st.nextHandle + batch.length } : LoaderState).loadedFeatures
          = (batch.filterMap (fun i =>
              (fetch (featureUrl mapId i lod)).map
                (fun g => (cacheKey mapId i lod, g)))).reverse ++ st.loadedFeatures from rfl]
        rw [alookup_append_right]
        · exact hcache j (List.mem_append_right _ hj)
        · intro hmem
          obtain ⟨i, hi, hkEq⟩ := filterMap_cache_fst_mem hmem
          exact hdisj (cacheKey_index_inj hkEq ▸ hi) hj)
      (fun j hj => hpend j (List.mem_append_right _ hj))
    simp only [loadFeaturesGo, hrb, hih]
    simp [List.filterMap_map, List.filterMap_append, List.reverse_append,
      List.append_assoc, List.flatten_cons, List.length_append]
    omega

theorem loadFeatures_fresh (fetch : String → Option Geo) (st : LoaderState)
    (mapId : String) (indices : List Nat) (lod : Nat)
    (hnd : indices.Nodup)
    (hcache : ∀ i ∈ indices, alookup (cacheKey mapId i lod) st.loadedFeatures = none)
    (hpend : ∀ i ∈ indices, alookup (featureUrl mapId i lod) st.pendingLoads = none) :
    loadFeatures fetch st mapId indices lod =
      (indices.filterMap (fun i => fetch (featureUrl mapId i lod)),
       { st with
           loadedFeatures := (indices.filterMap (fun i =>
             (fetch (featureUrl mapId i lod)).map
               (fun g => (cacheKey mapId i lod, g)))).reverse ++ st.loadedFeatures,
           nextHandle := st.nextHandle + indices.length },
       ((toBatches indices).map (fun b =>
         b.map (fun i => Event.fetchStart (featureUrl mapId i lod)) ++
         b.map (fun i => Event.settled (featureUrl mapId i lod)))).flatten) := by
  have hflat : (toBatches indices).flatten = indices := toBatches_flatten indices
  have hgo := loadFeaturesGo_fresh fetch mapId lod (toBatches indices) st
    (by rw [hflat]; exact hnd) (by rw [hflat]; exact hcache) (by rw [hflat]; exact hpend)
  rw [loadFeatures, hgo, hflat]

/-- C5: loadFeatures partitions its index list in order into fixed-width
batches of 50 that together cover exactly the requested indices, and runs
them strictly sequentially — in the network trace, every fetch of batch N
starts and then settles before any fetch of batch N+1 starts; 120
requested indices yield batches of sizes 50/50/20; every member settles
individually, a failed member (fetch = none) is merely excluded from the
results (and the cache) while every other member — in particular all of a
later batch — still contributes, and the call itself returns normally
with exactly the successful payloads in request order. -/
theorem loadFeatures_sequential_batches (fetch : String → Option Geo) (st : LoaderState)
    (mapId : String) (indices : List Nat) (lod : Nat)
    (hnd : indices.Nodup)
    (hcache : ∀ i ∈ indices, alookup (cacheKey mapId i lod) st.loadedFeatures = none)
    (hpend : ∀ i ∈ indices, alookup (featureUrl mapId i lod) st.pendingLoads = none) :
    (toBatches indices).flatten = indices ∧
    (∀ b ∈ toBatches indices, b.length ≤ CONCURRENT_LOADS) ∧
    (indices.length = 120 → (toBatches indices).map List.length = [50, 50, 20]) ∧
    (loadFeatures fetch st mapId indices lod).2.2 =
      ((toBatches indices).map (fun b =>
        b.map (fun i => Event.fetchStart (featureUrl mapId i lod)) ++
        b.map (fun i => Event.settled (featureUrl mapId i lod)))).flatten ∧
    (loadFeatures fetch st mapId indices lod).1 =
      indices.filterMap (fun i => fetch (featureUrl mapId i lod)) := by
  have hlf := loadFeatures_fresh fetch st mapId indices lod hnd hcache hpend
  exact ⟨toBatches_flatten indices, toBatches_length_le indices,
    toBatches_sizes_120 indices, by rw [hlf], by rw [hlf]⟩

theorem loadFeatures_sequential_batches_witness :
    (List.range 120).Nodup ∧
    (∀ i ∈ List.range 120,
      alookup (cacheKey "w" i 2) newLoader.loadedFeatures = none) ∧
    (∀ i ∈ List.range 120,
      alookup (featureUrl "w" i 2) newLoader.pendingLoads = none) ∧
    ((toBatches (List.range 120)).flatten = List.range 120 ∧
     (∀ b ∈ toBatches (List.range 120), b.length ≤ CONCURRENT_LOADS) ∧
     ((List.range 120).length = 120 →
       (toBatches (List.range 120)).map List.length = [50, 50, 20]) ∧
     (loadFeatures (fun u => if u = featureUrl "w" 60 2 then none else some ⟨1⟩)
         newLoader "w" (List.range 120) 2).2.2 =
       ((toBatches (List.range 120)).map (fun b =>
         b.map (fun i => Event.fetchStart (featureUrl "w" i 2)) ++
         b.map (fun i => Event.settled (featureUrl "w" i 2)))).flatten ∧
     (loadFeatures (fun u => if u = featureUrl "w" 60 2 then none else some ⟨1⟩)
         newLoader "w" (List.range 120) 2).1 =
       (List.range 120).filterMap (fun i =>
         if featureUrl "w" i 2 = featureUrl "w" 60 2 then none else some ⟨1⟩)) :=
  ⟨List.nodup_range 120, fun i _ => rfl, fun i _ => rfl,
    loadFeatures_sequential_batches
      (fun u => if u = featureUrl "w" 60 2 then none else some ⟨1⟩)
      newLoader "w" (List.range 120) 2
      (List.nodup_range 120) (fun i _ => rfl) (fun i _ => rfl)⟩

theorem foldl_addFeature_geoJsonLayers (hasLabel : Geo → Bool) :
    ∀ (features : List Geo) (layer : LayerState),
    (features.foldl (addFeatureToLayer hasLabel) layer).geoJsonLayers
      = layer.geoJsonLayers ++ features
  | [], layer => by simp
  | g :: rest, layer => by
    rw [List.foldl_cons, foldl_addFeature_geoJsonLayers hasLabel rest _]
    by_cases hL : hasLabel g <;>
      simp [addFeatureToLayer, hL, List.append_assoc]

set_option maxHeartbeats 1600000 in
/-- C7: when the zoom-derived detail level differs from the level a
visible dataset currently displays, updateLODLayers performs a hard cut,
never an incremental top-up: (a) the rendered geometry is rebuilt from
an empty layer list, ending up as exactly the fresh full-pass results;
(b) the dataset's feature cache is cleared entirely before reloading
(no key of the dataset resolves after the clear, and the loader state
threaded onward derives from the cleared cache); (c) the visible index
set is recomputed from the current viewport; (d) one full fetch pass at
the new level covers every currently-visible feature — the parsed
indices of the whole visible set, not just the cache-missing subset. -/
theorem updateLODLayers_hard_cut (fetch : String → Option Geo) (hasLabel : Geo → Bool)
    (spatialIndexByMap : List (String × List Feat)) (loader : LoaderState)
    (layer : LayerState) (currentLOD : Option Nat) (mapId : String)
    (bounds : Bounds) (zoom : ℚ)
    (hchange : currentLOD ≠ some (getLODForZoom zoom))
    (hnd : ((getFeaturesInBounds spatialIndexByMap mapId bounds).map
      (fun f => parseFeatureId f.id)).Nodup)
    (hpend : ∀ i ∈ (getFeaturesInBounds spatialIndexByMap mapId bounds).map
      (fun f => parseFeatureId f.id),
      alookup (featureUrl mapId i (getLODForZoom zoom)) loader.pendingLoads = none) :
    (∀ index lod, alookup (cacheKey mapId index lod)
      (clearMap loader mapId).loadedFeatures = none) ∧
    updateLODLayersStep fetch hasLabel spatialIndexByMap loader layer currentLOD mapId
        bounds zoom =
      ((loadFeatures fetch (clearMap loader mapId) mapId
          ((getFeaturesInBounds spatialIndexByMap mapId bounds).map
            (fun f => parseFeatureId f.id)) (getLODForZoom zoom)).2.1,
       (loadFeatures fetch (clearMap loader mapId) mapId
          ((getFeaturesInBounds spatialIndexByMap mapId bounds).map
            (fun f => parseFeatureId f.id)) (getLODForZoom zoom)).1.foldl
         (addFeatureToLayer hasLabel) ⟨[], []⟩,
       some (getLODForZoom zoom),
       (loadFeatures fetch (clearMap loader mapId) mapId
          ((getFeaturesInBounds spatialIndexByMap mapId bounds).map
            (fun f => parseFeatureId f.id)) (getLODForZoom zoom)).2.2) ∧
    (updateLODLayersStep fetch hasLabel spatialIndexByMap loader layer currentLOD mapId
        bounds zoom).2.1.geoJsonLayers =
      ((getFeaturesInBounds spatialIndexByMap mapId bounds).map
        (fun f => parseFeatureId f.id)).filterMap
        (fun i => fetch (featureUrl mapId i (getLODForZoom zoom))) ∧
    (updateLODLayersStep fetch hasLabel spatialIndexByMap loader layer currentLOD mapId
        bounds zoom).2.2.2 =
      ((toBatches ((getFeaturesInBounds spatialIndexByMap mapId bounds).map
          (fun f => parseFeatureId f.id))).map (fun b =>
        b.map (fun i => Event.fetchStart (featureUrl mapId i (getLODForZoom zoom))) ++
        b.map (fun i => Event.settled (featureUrl mapId i (getLODForZoom zoom))))).flatten ∧
    (updateLODLayersStep fetch hasLabel spatialIndexByMap loader layer currentLOD mapId
        bounds zoom).2.2.1 = some (getLODForZoom zoom) := by
  have hclear : ∀ index lod, alookup (cacheKey mapId index lod)
      (clearMap loader mapId).loadedFeatures = none :=
    fun index lod => clearMap_alookup_none loader mapId index lod
  have hcache2 : ∀ i ∈ (getFeaturesInBounds spatialIndexByMap mapId bounds).map
      (fun f => parseFeatureId f.id),
      alookup (cacheKey mapId i (getLODForZoom zoom))
        (clearMap loader mapId).loadedFeatures = none :=
    fun i _ => hclear i (getLODForZoom zoom)
  have hpend2 : ∀ i ∈ (getFeaturesInBounds spatialIndexByMap mapId bounds).map
      (fun f => parseFeatureId f.id),
      alookup (featureUrl mapId i (getLODForZoom zoom))
        (clearMap loader mapId).pendingLoads = none :=
    fun i hi => hpend i hi
  have hlf := loadFeatures_fresh fetch (clearMap loader mapId) mapId
    ((getFeaturesInBounds spatialIndexByMap mapId bounds).map
      (fun f => parseFeatureId f.id)) (getLODForZoom zoom)
    hnd hcache2 hpend2
  have hstep : updateLODLayersStep fetch hasLabel spatialIndexByMap loader layer
      currentLOD mapId bounds zoom =
      ((loadFeatures fetch (clearMap loader mapId) mapId
          ((getFeaturesInBounds spatialIndexByMap mapId bounds).map
            (fun f => parseFeatureId f.id)) (getLODForZoom zoom)).2.1,
       (loadFeatures fetch (clearMap loader mapId) mapId
          ((getFeaturesInBounds spatialIndexByMap mapId bounds).map
            (fun f => parseFeatureId f.id)) (getLODForZoom zoom)).1.foldl
         (addFeatureToLayer hasLabel) ⟨[], []⟩,
       some (getLODForZoom zoom),
       (loadFeatures fetch (clearMap loader mapId) mapId
          ((getFeaturesInBounds spatialIndexByMap mapId bounds).map
            (fun f => parseFeatureId f.id)) (getLODForZoom zoom)).2.2) := by
    simp only [updateLODLayersStep]
    rw [if_pos hchange, hlf]
  refine ⟨hclear, hstep, ?_, ?_, ?_⟩
  · rw [hstep]
    simp only [hlf]
    rw [foldl_addFeature_geoJsonLayers]
    rfl
  · rw [hstep]
    simp only [hlf]
  · rw [hstep]

theorem updateLODLayers_hard_cut_witness :
    ((none : Option Nat) ≠ some (getLODForZoom 13)) ∧
    ((getFeaturesInBounds ([] : List (String × List Feat)) "m" ⟨0, 0, 0, 0⟩).map
      (fun f => parseFeatureId f.id)).Nodup ∧
    (∀ i ∈ (getFeaturesInBounds ([] : List (String × List Feat)) "m" ⟨0, 0, 0, 0⟩).map
      (fun f => parseFeatureId f.id),
      alookup (featureUrl "m" i (getLODForZoom 13)) newLoader.pendingLoads = none) ∧
    ((∀ index lod, alookup (cacheKey "m" index lod)
        (clearMap newLoader "m").loadedFeatures = none) ∧
     updateLODLayersStep (fun _ => some ⟨0⟩) (fun _ => true)
         ([] : List (String × List Feat)) newLoader ⟨[], []⟩ none "m" ⟨0, 0, 0, 0⟩ 13 =
       ((loadFeatures (fun _ => some ⟨0⟩) (clearMap newLoader "m") "m"
           ((getFeaturesInBounds ([] : List (String × List Feat)) "m" ⟨0, 0, 0, 0⟩).map
             (fun f => parseFeatureId f.id)) (getLODForZoom 13)).2.1,
        (loadFeatures (fun _ => some ⟨0⟩) (clearMap newLoader "m") "m"
           ((getFeaturesInBounds ([] : List (String × List Feat)) "m" ⟨0, 0, 0, 0⟩).map
             (fun f => parseFeatureId f.id)) (getLODForZoom 13)).1.foldl
          (addFeatureToLayer (fun _ => true)) ⟨[], []⟩,
        some (getLODForZoom 13),
        (loadFeatures (fun _ => some ⟨0⟩) (clearMap newLoader "m") "m"
           ((getFeaturesInBounds ([] : List (String × List Feat)) "m" ⟨0, 0, 0, 0⟩).map
             (fun f => parseFeatureId f.id)) (getLODForZoom 13)).2.2) ∧
     (updateLODLayersStep (fun _ => some ⟨0⟩) (fun _ => true)
         ([] : List (String × List Feat)) newLoader ⟨[], []⟩ none "m"
         ⟨0, 0, 0, 0⟩ 13).2.1.geoJsonLayers =
       ((getFeaturesInBounds ([] : List (String × List Feat)) "m" ⟨0, 0, 0, 0⟩).map
         (fun f => parseFeatureId f.id)).filterMap
         (fun i => (fun _ => some ⟨0⟩ : String → Option Geo)
           (featureUrl "m" i (getLODForZoom 13))) ∧
     (updateLODLayersStep (fun _ => some ⟨0⟩) (fun _ => true)
         ([] : List (String × List Feat)) newLoader ⟨[], []⟩ none "m"
         ⟨0, 0, 0, 0⟩ 13).2.2.2 =
       ((toBatches ((getFeaturesInBounds ([] : List (String × List Feat)) "m"
           ⟨0, 0, 0, 0⟩).map (fun f => parseFeatureId f.id))).map (fun b =>
         b.map (fun i => Event.fetchStart (featureUrl "m" i (getLODForZoom 13))) ++
         b.map (fun i => Event.settled (featureUrl "m" i (getLODForZoom 13))))).flatten ∧
     (updateLODLayersStep (fun _ => some ⟨0⟩) (fun _ => true)
         ([] : List (String × List Feat)) newLoader ⟨[], []⟩ none "m"
         ⟨0, 0, 0, 0⟩ 13).2.2.1 = some (getLODForZoom 13)) :=
  ⟨by simp, List.nodup_nil, fun i _ => rfl,
    updateLODLayers_hard_cut (fun _ => some ⟨0⟩) (fun _ => true)
      ([] : List (String × List Feat)) newLoader ⟨[], []⟩ none "m" ⟨0, 0, 0, 0⟩ 13
      (by simp) List.nodup_nil (fun i _ => rfl)⟩

end NIB
